import Mathlib

/-!
Verification development for the cam-recorder repository.

The Go sources under `internal/recorder/recorder.go` and
`internal/storage/storage.go` are shallowly embedded below: each Go
method becomes a pure Lean function on an explicit state record, maps
become association lists (Go maps have unique keys; insertion either
replaces the entry for an existing key or appends a new one), byte
slices become `List UInt8`, `time.Time` values become either abstract
integer instants (for file modification times) or a calendar record
(for segment-filename timestamps), and effects of the outside world
(directory creation failing, a segment child process failing, a file
deletion failing) become explicit boolean/`Option` inputs.
-/

namespace CamRecorder

/-! ## Recorder (ProcessSupervisor), from `Recorder` in recorder.go -/

/-- State of one `Recorder` (recorder.go lines 16-27).  `cmd` (the child
process handle) is not represented; `loops` counts supervision goroutines
spawned by `go r.runRecorder(ctx)`, so that "launches the loop" /
"leaves the loop unchanged" are observable.  `stopClosed` models whether
`stopCh` has been closed; `startTime` is an abstract instant. -/
structure RecorderState where
  rtspURL : String
  cameraName : String
  outputDir : String
  running : Bool
  stopClosed : Bool
  lastError : Option String
  startTime : Nat
  loops : Nat
deriving Repr, DecidableEq

/-- `strings.ReplaceAll(cameraName, " ", "_")` (recorder.go line 39). -/
def safeCameraName (s : String) : String :=
  String.mk (s.data.map (fun c => if c = ' ' then '_' else c))

/-- `New(rtspURL, cameraName, cfg)` (recorder.go lines 38-49);
`filepath.Join(cfg.OutputDir, safeName)` is rendered as `root ++ "/" ++ safeName`.
The fresh `stopCh` channel is open (`stopClosed := false`). -/
def Recorder.new (rtspURL cameraName outputRoot : String) : RecorderState :=
  { rtspURL := rtspURL
    cameraName := cameraName
    outputDir := outputRoot ++ "/" ++ safeCameraName cameraName
    running := false
    stopClosed := false
    lastError := none
    startTime := 0
    loops := 0 }

def alreadyRunningMsg : String := "recorder already running"

def mkdirFailedMsg : String := "failed to create output directory"

/-- `Recorder.Start` (recorder.go lines 51-68).  `now` is the value of
`time.Now()`, `mkdirFails` tells whether `os.MkdirAll` fails.  Returns the
Go error together with the recorder state after the call. -/
def Recorder.start (st : RecorderState) (now : Nat) (mkdirFails : Bool) :
    Option String × RecorderState :=
  if st.running then (some alreadyRunningMsg, st)
  else if mkdirFails then (some mkdirFailedMsg, st)
  else (none, { st with running := true, startTime := now, loops := st.loops + 1 })

/-- `Recorder.Stop` (recorder.go lines 136-146): no-op when not running,
otherwise closes `stopCh` and clears the running flag.  It never makes a
new channel, so `stopClosed` is never reset to `false`. -/
def Recorder.stop (st : RecorderState) : RecorderState :=
  if st.running then { st with stopClosed := true, running := false } else st

/-- `Recorder.IsRunning` (recorder.go lines 148-152). -/
def Recorder.isRunning (st : RecorderState) : Bool := st.running

/-- `Recorder.GetLastError` (recorder.go lines 154-158). -/
def Recorder.getLastError (st : RecorderState) : Option String := st.lastError

/-! ### The supervision loop `runRecorder` (recorder.go lines 70-88)

The loop is modelled as a trace generator.  Each iteration of the Go
`for`/`select` either observes the closed stop channel (or cancelled
context) and returns, or runs `recordSegment` once; `results` lists the
outcome of each successive `recordSegment` call (`none` = clean exit,
`some e` = `ffmpeg error`), acting as fuel for the unbounded loop. -/

inductive LoopEvent where
  | segmentAttempt
  | recordError (msg : String)
  | backoff (seconds : Nat)
  | terminated
deriving Repr, DecidableEq

/-- One pass through the `default:` branch of the `select`: run a segment;
on error, store it in `lastError` and `time.Sleep(5 * time.Second)`. -/
def segmentStep (lastErr : Option String) (result : Option String) :
    List LoopEvent × Option String :=
  match result with
  | none => ([LoopEvent.segmentAttempt], lastErr)
  | some e =>
      ([LoopEvent.segmentAttempt, LoopEvent.recordError e, LoopEvent.backoff 5], some e)

/-- The supervision loop.  `stopClosed` covers both `<-ctx.Done()` and
`<-r.stopCh` being ready: either way the loop returns at once. -/
def runRecorder (stopClosed : Bool) (results : List (Option String))
    (lastErr : Option String) : List LoopEvent × Option String :=
  if stopClosed then ([LoopEvent.terminated], lastErr)
  else
    match results with
    | [] => ([], lastErr)
    | r :: rest =>
        let step := segmentStep lastErr r
        let tail := runRecorder stopClosed rest step.2
        (step.1 ++ tail.1, tail.2)

def countAttempts (evs : List LoopEvent) : Nat :=
  evs.count LoopEvent.segmentAttempt

/-! ## RecorderManager (recording Registry), recorder.go lines 216-305 -/

/-- Go map assignment `m[k] = v`: replace the entry of an existing key,
otherwise append a new one. -/
def setEntry {α : Type} (l : List (String × α)) (k : String) (v : α) :
    List (String × α) :=
  if (l.lookup k).isSome then l.map (fun p => if p.1 = k then (k, v) else p)
  else l ++ [(k, v)]

/-- Go map `delete(m, k)`: drop the entry (keys are unique, so dropping
every entry with key `k` is the same operation). -/
def removeEntry {α : Type} (l : List (String × α)) (k : String) :
    List (String × α) :=
  l.filter (fun p => p.1 ≠ k)

structure RecorderManager where
  recorders : List (String × RecorderState)
deriving Repr, DecidableEq

def notFoundMsg (name : String) : String := "camera " ++ name ++ " not found"

def alreadyExistsMsg (name : String) : String := "camera " ++ name ++ " already exists"

def startFailedMsg (name e : String) : String :=
  "failed to start recorder for " ++ name ++ ": " ++ e

/-- `RecorderManager.AddCamera` (recorder.go lines 229-247).  The new
recorder is put in `rm.recorders[name]` first; only then, when `enabled`,
is `rec.Start(ctx)` called — a `Start` error is returned but the map entry
stays (the Go `rec` is a pointer, so the stored entry reflects whatever
`Start` did to the recorder). -/
def RecorderManager.addCamera (rm : RecorderManager) (name rtspURL : String)
    (enabled : Bool) (outputRoot : String) (now : Nat) (mkdirFails : Bool) :
    Option String × RecorderManager :=
  if (rm.recorders.lookup name).isSome then (some (alreadyExistsMsg name), rm)
  else
    let r := Recorder.new rtspURL name outputRoot
    if enabled then
      let res := Recorder.start r now mkdirFails
      match res.1 with
      | some e => (some (startFailedMsg name e), ⟨setEntry rm.recorders name res.2⟩)
      | none => (none, ⟨setEntry rm.recorders name res.2⟩)
    else (none, ⟨setEntry rm.recorders name r⟩)

/-- `RecorderManager.RemoveCamera` (recorder.go lines 249-257). -/
def RecorderManager.removeCamera (rm : RecorderManager) (name : String) :
    RecorderManager :=
  match rm.recorders.lookup name with
  | none => rm
  | some _ => ⟨removeEntry rm.recorders name⟩

/-- `RecorderManager.StartCamera` (recorder.go lines 259-269): unknown
name yields the not-found error and leaves the registry as it was. -/
def RecorderManager.startCamera (rm : RecorderManager) (name : String)
    (now : Nat) (mkdirFails : Bool) : Option String × RecorderManager :=
  match rm.recorders.lookup name with
  | none => (some (notFoundMsg name), rm)
  | some r =>
      let res := Recorder.start r now mkdirFails
      (res.1, ⟨setEntry rm.recorders name res.2⟩)

/-- `RecorderManager.StopCamera` (recorder.go lines 271-278).  Note the
Go method returns nothing: an unknown name is silently ignored. -/
def RecorderManager.stopCamera (rm : RecorderManager) (name : String) :
    RecorderManager :=
  match rm.recorders.lookup name with
  | none => rm
  | some r => ⟨setEntry rm.recorders name (Recorder.stop r)⟩

/-- `RecorderManager.GetRecorder` (recorder.go lines 280-285); the Go
`(rec, ok)` pair is an `Option`. -/
def RecorderManager.getRecorder (rm : RecorderManager) (name : String) :
    Option RecorderState :=
  rm.recorders.lookup name

/-! ## RetentionSweeper: `Manager.cleanup` (storage.go lines 78-134) -/

/-- One directory entry as seen by the sweep: `infoFails` models
`entry.Info()` failing, `removeFails` models `os.Remove` failing. -/
structure FsFile where
  name : String
  isDir : Bool
  modTime : Int
  size : Int
  infoFails : Bool
  removeFails : Bool
deriving Repr, DecidableEq

/-- One entry of the output root: `isDir = false` entries are skipped,
`readFails` models `os.ReadDir(cameraPath)` failing (also standing for a
camera directory that vanished between the two reads). -/
structure CameraDir where
  name : String
  isDir : Bool
  readFails : Bool
  entries : List FsFile
deriving Repr, DecidableEq

/-- The output root; `rootMissing` models `os.ReadDir(OutputDir)` failing
with `os.IsNotExist`, which `cleanup` treats as a clean no-op. -/
structure OutputRoot where
  rootMissing : Bool
  dirs : List CameraDir
deriving Repr, DecidableEq

/-- The per-file body of the sweep loop (storage.go lines 107-126):
skip subdirectories, skip files whose `Info()` fails, delete files with
`info.ModTime().Before(cutoff)`, and on a deletion error log and
`continue` (the file stays, the loop goes on).  Returns the surviving
entries together with the deleted count and deleted byte total. -/
def cleanupEntries (cutoff : Int) : List FsFile → List FsFile × Nat × Int
  | [] => ([], 0, 0)
  | f :: rest =>
      let res := cleanupEntries cutoff rest
      if f.isDir then (f :: res.1, res.2.1, res.2.2)
      else if f.infoFails then (f :: res.1, res.2.1, res.2.2)
      else if f.modTime < cutoff then
        if f.removeFails then (f :: res.1, res.2.1, res.2.2)
        else (res.1, res.2.1 + 1, res.2.2 + f.size)
      else (f :: res.1, res.2.1, res.2.2)

/-- One camera directory of the sweep (storage.go lines 96-127):
non-directories are skipped, an unreadable directory is skipped
(`continue`), otherwise its entries are processed. -/
def cleanupDir (cutoff : Int) (d : CameraDir) : CameraDir × Nat × Int :=
  if !d.isDir then (d, 0, 0)
  else if d.readFails then (d, 0, 0)
  else
    let res := cleanupEntries cutoff d.entries
    ({ d with entries := res.1 }, res.2.1, res.2.2)

def cleanupDirs (cutoff : Int) : List CameraDir → List CameraDir × Nat × Int
  | [] => ([], 0, 0)
  | d :: rest =>
      let r1 := cleanupDir cutoff d
      let r2 := cleanupDirs cutoff rest
      (r1.1 :: r2.1, r1.2.1 + r2.2.1, r1.2.2 + r2.2.2)

/-- `Manager.cleanup` (storage.go lines 78-134).  `cutoff` is the value of
`time.Now().AddDate(0, 0, -RetentionDays)`, i.e. "now minus the retention
horizon".  A missing output root returns `nil` immediately having deleted
nothing. -/
def cleanup (cutoff : Int) (root : OutputRoot) : OutputRoot × Nat × Int :=
  if root.rootMissing then (root, 0, 0)
  else
    let res := cleanupDirs cutoff root.dirs
    ({ root with dirs := res.1 }, res.2.1, res.2.2)

/-! ## FrameDemuxer: `MJPEGStreamer.readFrames` and `bytesIndex`
(recorder.go lines 414-456 and 480-494) -/

/-- JPEG start-of-image marker `{0xFF, 0xD8}` (recorder.go line 431). -/
def jpegStart : List UInt8 := [0xFF, 0xD8]

/-- JPEG end-of-image marker `{0xFF, 0xD9}` (recorder.go line 439). -/
def jpegEnd : List UInt8 := [0xFF, 0xD9]

/-- `bytesIndex(data, pattern)` (recorder.go lines 480-494): the first
index at which `pattern` occurs in `data`, with `none` for Go's `-1`.
The Go loop tries each start index in increasing order and compares
`pattern` byte by byte, which is exactly a prefix test on each suffix. -/
def bytesIndex (data pattern : List UInt8) : Option Nat :=
  if pattern.isPrefixOf data then some 0
  else
    match data with
    | [] => none
    | _ :: rest => (bytesIndex rest pattern).map (· + 1)

theorem isPrefixOf_length_le {α : Type} [BEq α] :
    ∀ (l₁ l₂ : List α), l₁.isPrefixOf l₂ = true → l₁.length ≤ l₂.length
  | [], _, _ => Nat.zero_le _
  | _ :: _, [], h => by simp [List.isPrefixOf] at h
  | a :: as, b :: bs, h => by
      simp only [List.isPrefixOf, Bool.and_eq_true] at h
      simpa using Nat.succ_le_succ (isPrefixOf_length_le as bs h.2)

theorem bytesIndex_some_add_length :
    ∀ {data pattern : List UInt8} {i : Nat},
      bytesIndex data pattern = some i → i + pattern.length ≤ data.length := by
  intro data
  induction data with
  | nil =>
      intro pattern i h
      rw [bytesIndex] at h
      by_cases hp : pattern.isPrefixOf ([] : List UInt8)
      · rw [if_pos hp] at h
        obtain rfl : i = 0 := by simpa using h.symm
        simpa using isPrefixOf_length_le pattern [] hp
      · simp [hp] at h
  | cons a rest ih =>
      intro pattern i h
      rw [bytesIndex] at h
      by_cases hp : pattern.isPrefixOf (a :: rest)
      · rw [if_pos hp] at h
        obtain rfl : i = 0 := by simpa using h.symm
        simpa using isPrefixOf_length_le pattern (a :: rest) hp
      · rw [if_neg hp] at h
        obtain ⟨j, hj, rfl⟩ := Option.map_eq_some'.mp h
        have := ih hj
        simp only [List.length_cons]
        omega

/-- The inner frame-extraction loop of `readFrames` (recorder.go lines
430-453) on the current accumulator: find a start marker (when absent,
halve the accumulator once it exceeds 512 KiB and stop for this chunk),
find the matching end marker (when absent, keep the accumulator and wait
for more input), otherwise emit the inclusive `[startIdx, endIdx+2)` byte
range as one frame and continue on the rest.  Returns the frames passed
to the callback, in order, together with the accumulator left behind. -/
def scanFrames (acc : List UInt8) : List (List UInt8) × List UInt8 :=
  match h1 : bytesIndex acc jpegStart with
  | none =>
      if acc.length > 512 * 1024 then ([], acc.drop (acc.length / 2)) else ([], acc)
  | some s =>
      match h2 : bytesIndex (acc.drop s) jpegEnd with
      | none => ([], acc)
      | some e0 =>
          let res := scanFrames (acc.drop (s + (e0 + 2)))
          (((acc.drop s).take (e0 + 2)) :: res.1, res.2)
termination_by acc.length
decreasing_by
  have hb := bytesIndex_some_add_length h1
  simp only [jpegStart, List.length_cons, List.length_nil] at hb
  simp only [List.length_drop]
  omega

/-- One iteration of the outer read loop of `readFrames` (recorder.go
lines 423-453): append the chunk just read to the accumulator, then run
the extraction loop. -/
def processChunk (acc chunk : List UInt8) : List (List UInt8) × List UInt8 :=
  scanFrames (acc ++ chunk)

/-- A complete frame with body `b`: start marker, body, end marker. -/
def frameBytes (b : List UInt8) : List UInt8 :=
  jpegStart ++ b ++ jpegEnd

/-! ## FrameBroadcaster: `MJPEGManager` (recorder.go lines 496-591) -/

/-- State of one `MJPEGStreamer` (recorder.go lines 363-369). -/
structure StreamerState where
  rtspURL : String
  running : Bool
  stopClosed : Bool
deriving Repr, DecidableEq

/-- `NewMJPEGStreamer` (recorder.go lines 371-376). -/
def MJPEGStreamer.new (rtspURL : String) : StreamerState :=
  { rtspURL := rtspURL, running := false, stopClosed := false }

/-- `MJPEGManager` (recorder.go lines 496-501): three maps keyed by
camera name.  `frames[name]` is an `Option` because the slot is
initialised to the nil slice. -/
structure MJPEGManager where
  streamers : List (String × StreamerState)
  frames : List (String × Option (List UInt8))
  conds : List String
deriving Repr, DecidableEq

def MJPEGManager.empty : MJPEGManager :=
  { streamers := [], frames := [], conds := [] }

/-- `MJPEGManager.Start` (recorder.go lines 511-543): a name that already
has a streamer returns `nil` at once and changes nothing; otherwise a new
streamer is registered, the frame slot is set to nil and a fresh
condition variable is installed (the asynchronous `streamer.Start` is the
child-process side and does not touch the manager's maps). -/
def MJPEGManager.start (m : MJPEGManager) (name rtspURL : String) :
    Option String × MJPEGManager :=
  if (m.streamers.lookup name).isSome then (none, m)
  else
    (none,
      { streamers := setEntry m.streamers name (MJPEGStreamer.new rtspURL)
        frames := setEntry m.frames name none
        conds := m.conds ++ [name] })

/-- The frame callback installed by `MJPEGManager.Start` (recorder.go
lines 524-540): when the camera still has a condition variable, overwrite
`frames[name]` with (a copy of) the new frame and broadcast; otherwise do
nothing. -/
def MJPEGManager.deliverFrame (m : MJPEGManager) (name : String)
    (frame : List UInt8) : MJPEGManager :=
  if (m.conds.contains name) then
    { m with frames := setEntry m.frames name (some frame) }
  else m

/-- `MJPEGManager.Stop` (recorder.go lines 545-555): a registered name is
removed from all three maps; an unknown name changes nothing. -/
def MJPEGManager.stop (m : MJPEGManager) (name : String) : MJPEGManager :=
  if (m.streamers.lookup name).isSome then
    { streamers := removeEntry m.streamers name
      frames := removeEntry m.frames name
      conds := m.conds.filter (fun c => c ≠ name) }
  else m

/-- `MJPEGManager.StopAll` (recorder.go lines 557-567). -/
def MJPEGManager.stopAll (_ : MJPEGManager) : MJPEGManager :=
  MJPEGManager.empty

/-- `MJPEGManager.GetFrame` (recorder.go lines 569-574): the Go
`(frame, ok)` pair; the outer `Option` is `ok`, the inner one the
possibly-nil slot. -/
def MJPEGManager.getFrame (m : MJPEGManager) (name : String) :
    Option (Option (List UInt8)) :=
  m.frames.lookup name

def keysOf {α : Type} (l : List (String × α)) : List String :=
  l.map Prod.fst

/-- Well-formedness the Go code maintains: unique keys and the same key
set (in the same insertion order) across the three maps. -/
def MJPEGManager.wf (m : MJPEGManager) : Prop :=
  (keysOf m.streamers).Nodup ∧ (keysOf m.frames).Nodup ∧ m.conds.Nodup ∧
    keysOf m.streamers = keysOf m.frames ∧ keysOf m.streamers = m.conds

instance : DecidablePred MJPEGManager.wf := fun m => by
  unfold MJPEGManager.wf; infer_instance

/-! ## Segment filenames: `Recorder.recordSegment` (recorder.go lines 90-98)

`time.Now().Format("20060102_150405")` renders the wall-clock time as
`YYYYMMDD_HHMMSS` with zero padding; the segment filename is
`{safeName}_{timestamp}.{format}`. -/

/-- A wall-clock instant at second granularity, as the `Format` layout
`20060102_150405` consumes it. -/
structure DateTime where
  year : Nat
  month : Nat
  day : Nat
  hour : Nat
  minute : Nat
  second : Nat
deriving Repr, DecidableEq

/-- The field ranges `time.Time` guarantees (years up to 9999 as the
4-digit layout assumes). -/
def DateTime.valid (t : DateTime) : Prop :=
  t.year < 10000 ∧ 1 ≤ t.month ∧ t.month ≤ 12 ∧ 1 ≤ t.day ∧ t.day ≤ 31 ∧
    t.hour < 24 ∧ t.minute < 60 ∧ t.second < 60

instance : DecidablePred DateTime.valid := fun t => by
  unfold DateTime.valid; infer_instance

/-- Chronological order of instants: lexicographic on the fields. -/
def DateTime.before (a b : DateTime) : Prop :=
  a.year < b.year ∨ (a.year = b.year ∧
    (a.month < b.month ∨ (a.month = b.month ∧
      (a.day < b.day ∨ (a.day = b.day ∧
        (a.hour < b.hour ∨ (a.hour = b.hour ∧
          (a.minute < b.minute ∨ (a.minute = b.minute ∧
            a.second < b.second)))))))))

instance : ∀ a b : DateTime, Decidable (DateTime.before a b) := fun a b => by
  unfold DateTime.before; infer_instance

/-- The ASCII digit character for `d` (expects `d < 10`). -/
def digitChar (d : Nat) : Char := Char.ofNat (48 + d)

/-- Two-digit zero-padded decimal rendering (for `n < 100`). -/
def pad2 (n : Nat) : List Char := [digitChar (n / 10), digitChar (n % 10)]

/-- Four-digit zero-padded decimal rendering (for `n < 10000`): the
high two digits followed by the low two. -/
def pad4 (n : Nat) : List Char := pad2 (n / 100) ++ pad2 (n % 100)

/-- The characters `Format("20060102_150405")` produces. -/
def formatTimestamp (t : DateTime) : List Char :=
  pad4 t.year ++ pad2 t.month ++ pad2 t.day ++ ['_'] ++
    pad2 t.hour ++ pad2 t.minute ++ pad2 t.second

/-- The characters of `fmt.Sprintf("%s_%s.%s", safeName, timestamp, format)`
(recorder.go lines 93-97). -/
def segmentFilenameChars (cameraName format : String) (t : DateTime) : List Char :=
  (safeCameraName cameraName).data ++ ('_' :: formatTimestamp t) ++ ('.' :: format.data)

/-- The generated segment filename. -/
def segmentFilename (cameraName format : String) (t : DateTime) : String :=
  String.mk (segmentFilenameChars cameraName format t)

/-! ## Association-list lemmas -/

theorem lookup_append_of_none {α : Type} (l₁ l₂ : List (String × α)) (k : String)
    (h : l₁.lookup k = none) : (l₁ ++ l₂).lookup k = l₂.lookup k := by
  induction l₁ with
  | nil => rfl
  | cons p rest ih =>
      simp only [List.lookup, List.cons_append] at h ⊢
      cases hk : (k == p.1) with
      | true => simp [hk] at h
      | false =>
          simp only [hk] at h ⊢
          exact ih h

theorem lookup_setEntry_self {α : Type} (l : List (String × α)) (k : String) (v : α) :
    (setEntry l k v).lookup k = some v := by
  unfold setEntry
  by_cases h : (l.lookup k).isSome
  · simp only [h, if_true]
    induction l with
    | nil => simp [List.lookup] at h
    | cons p rest ih =>
        simp only [List.map_cons]
        by_cases hp : p.1 = k
        · rw [if_pos hp]
          simp [List.lookup]
        · rw [if_neg hp]
          have hk : (k == p.1) = false := by
            simp only [beq_eq_false_iff_ne, ne_eq]
            exact fun he => hp he.symm
          simp only [List.lookup, hk] at h ⊢
          exact ih h
  · have hnone : l.lookup k = none := by
      cases hl : l.lookup k with
      | none => rfl
      | some w => rw [hl] at h; simp at h
    rw [hnone]
    simp only [Option.isSome_none, Bool.false_eq_true, if_false]
    rw [lookup_append_of_none l _ k hnone]
    simp [List.lookup]

theorem lookup_removeEntry_self {α : Type} (l : List (String × α)) (k : String) :
    (removeEntry l k).lookup k = none := by
  unfold removeEntry
  induction l with
  | nil => rfl
  | cons p rest ih =>
      by_cases hp : p.1 = k
      · simpa [hp] using ih
      · have hk : (k == p.1) = false := by
          simp [beq_eq_false_iff_ne]
          exact fun he => hp he.symm
        simpa [List.filter, hp, List.lookup, hk] using ih

theorem keysOf_setEntry_of_isSome {α : Type} (l : List (String × α)) (k : String)
    (v : α) (h : (l.lookup k).isSome) : keysOf (setEntry l k v) = keysOf l := by
  unfold setEntry keysOf
  simp only [h, if_true, List.map_map]
  refine List.map_congr_left ?_
  intro p _
  by_cases hp : p.1 = k <;> simp [hp]

theorem keysOf_setEntry_of_none {α : Type} (l : List (String × α)) (k : String)
    (v : α) (h : l.lookup k = none) : keysOf (setEntry l k v) = keysOf l ++ [k] := by
  unfold setEntry keysOf
  simp [h]

theorem length_setEntry_of_isSome {α : Type} (l : List (String × α)) (k : String)
    (v : α) (h : (l.lookup k).isSome) : (setEntry l k v).length = l.length := by
  unfold setEntry
  simp [h]

theorem keysOf_removeEntry {α : Type} (l : List (String × α)) (k : String) :
    keysOf (removeEntry l k) = (keysOf l).filter (fun c => c ≠ k) := by
  unfold removeEntry keysOf
  induction l with
  | nil => rfl
  | cons p rest ih =>
      simp only [decide_not, ne_eq] at ih
      by_cases hp : p.1 = k <;>
        simp [List.filter_cons, hp, decide_not, ih]

theorem lookup_isSome_of_mem_keysOf {α : Type} (l : List (String × α)) (k : String)
    (h : k ∈ keysOf l) : (l.lookup k).isSome := by
  induction l with
  | nil => simp [keysOf] at h
  | cons p rest ih =>
      simp only [keysOf, List.map_cons, List.mem_cons] at h
      rcases h with h | h
      · simp [List.lookup, h.symm]
      · by_cases hk : (k == p.1) = true
        · simp [List.lookup, hk]
        · simp only [List.lookup, Bool.not_eq_true] at hk ⊢
          rw [hk]
          exact ih h

theorem lookup_none_of_not_mem_keysOf {α : Type} (l : List (String × α)) (k : String)
    (h : k ∉ keysOf l) : l.lookup k = none := by
  induction l with
  | nil => rfl
  | cons p rest ih =>
      simp only [keysOf, List.map_cons, List.mem_cons, not_or] at h
      have hk : (k == p.1) = false := by
        simp [beq_eq_false_iff_ne]
        exact h.1
      simp only [List.lookup, hk]
      exact ih h.2

/-! ## Claim theorems -/

/-- C1: if a `Recorder` is already running, a second `Start` without an
intervening `Stop` returns the `AlreadyRunning` error and the recorder's
entire state — running flag, start time, output directory, stop channel,
last error and the count of launched supervision loops — is exactly the
state before the call. -/
theorem start_when_running_rejected (st : RecorderState) (now : Nat)
    (mkdirFails : Bool) (h : st.running = true) :
    Recorder.start st now mkdirFails = (some alreadyRunningMsg, st) := by
  simp [Recorder.start, h]

def runningRecorder : RecorderState :=
  { Recorder.new "rtsp://example/stream" "Front Door" "recordings" with
      running := true, loops := 1 }

theorem start_when_running_rejected_witness :
    runningRecorder.running = true ∧
    Recorder.start runningRecorder 99 false = (some alreadyRunningMsg, runningRecorder) :=
  ⟨rfl, start_when_running_rejected runningRecorder 99 false rfl⟩

/-- C2 counterexample: `RecorderManager.StopCamera` returns no error at
all — on the empty registry, stopping the unknown camera "Front Door" is
a silent no-op yielding the unchanged registry, with no `NotFound` (or
any other) error value in its result. -/
theorem stopCamera_unknown_silent_noop :
    RecorderManager.stopCamera ⟨[]⟩ "Front Door" = (⟨[]⟩ : RecorderManager) := rfl

/-- C2 (amended): for a camera name absent from the registry,
`StartCamera` fails with the `NotFound` error and leaves the registry
unchanged, `GetRecorder` reports not-found, and `StopCamera` — which has
no error result — leaves the registry unchanged as a silent no-op. -/
theorem registry_unknown_name_behaviour (rm : RecorderManager) (name : String)
    (now : Nat) (mkdirFails : Bool) (h : rm.recorders.lookup name = none) :
    rm.startCamera name now mkdirFails = (some (notFoundMsg name), rm) ∧
    rm.stopCamera name = rm ∧
    rm.getRecorder name = none := by
  refine ⟨?_, ?_, h⟩
  · unfold RecorderManager.startCamera
    rw [h]
  · unfold RecorderManager.stopCamera
    rw [h]

def sampleManager : RecorderManager :=
  ⟨[("Garage", Recorder.new "rtsp://cam/garage" "Garage" "recordings")]⟩

theorem registry_unknown_name_behaviour_witness :
    sampleManager.recorders.lookup "Porch" = none ∧
    (sampleManager.startCamera "Porch" 7 false =
        (some (notFoundMsg "Porch"), sampleManager) ∧
      sampleManager.stopCamera "Porch" = sampleManager ∧
      sampleManager.getRecorder "Porch" = none) :=
  ⟨by decide, registry_unknown_name_behaviour sampleManager "Porch" 7 false (by decide)⟩

/-- C6: with no stop or cancellation pending, a failed segment invocation
records its error as `lastError` and is followed in the supervision trace
by the fixed 5-second backoff and then the events of the next attempts;
the loop attempts one segment per supplied outcome no matter how many
failures occur, and never emits a termination event because of them. -/
theorem runRecorder_retries_after_failure (pre post : List (Option String))
    (e : String) (le : Option String) :
    (runRecorder false (pre ++ some e :: post) le).1 =
      (runRecorder false pre le).1 ++
        LoopEvent.segmentAttempt :: LoopEvent.recordError e :: LoopEvent.backoff 5 ::
          (runRecorder false post (some e)).1 ∧
    (runRecorder false (pre ++ [some e]) le).2 = some e ∧
    countAttempts (runRecorder false (pre ++ some e :: post) le).1 =
      pre.length + 1 + post.length ∧
    LoopEvent.terminated ∉ (runRecorder false (pre ++ some e :: post) le).1 := by
  refine ⟨?_, ?_, ?_, ?_⟩
  · induction pre generalizing le with
    | nil => simp [runRecorder, segmentStep]
    | cons r rest ih => cases r <;> simp [runRecorder, segmentStep, ih]
  · induction pre generalizing le with
    | nil => simp [runRecorder, segmentStep]
    | cons r rest ih => cases r <;> simp [runRecorder, segmentStep, ih]
  · have key : ∀ (rs : List (Option String)) (le' : Option String),
        countAttempts (runRecorder false rs le').1 = rs.length := by
      intro rs
      induction rs with
      | nil => intro le'; simp [runRecorder, countAttempts]
      | cons r rest ih =>
          intro le'
          have ih' : ∀ le'' : Option String,
              List.count LoopEvent.segmentAttempt (runRecorder false rest le'').1 =
                rest.length := by
            intro le''
            simpa [countAttempts] using ih le''
          cases r <;>
            simp [runRecorder, segmentStep, countAttempts, List.count_cons,
              List.count_append, ih']
    rw [key]
    simp
    omega
  · have key : ∀ (rs : List (Option String)) (le' : Option String),
        LoopEvent.terminated ∉ (runRecorder false rs le').1 := by
      intro rs
      induction rs with
      | nil => intro le'; simp [runRecorder]
      | cons r rest ih =>
          intro le'
          cases r <;> simp [runRecorder, segmentStep, ih]
    exact key _ le

theorem runRecorder_stopped (results : List (Option String)) (le : Option String) :
    runRecorder true results le = ([LoopEvent.terminated], le) := by
  cases results <;> simp [runRecorder]

/-- C8: after `Stop` on a running recorder the stop channel is closed and
stays closed through every later `Stop`/`Start`; a subsequent `Start`
succeeds, sets the running flag and the start time, and the supervision
loop it launches sees the closed channel and terminates at once with
zero segment attempts, while `IsRunning` still reports true. -/
theorem stop_then_start_loop_dead (st : RecorderState) (now : Nat)
    (results : List (Option String)) (h : st.running = true) :
    (Recorder.stop st).stopClosed = true ∧
    (Recorder.stop st).running = false ∧
    (Recorder.start (Recorder.stop st) now false).1 = none ∧
    ((Recorder.start (Recorder.stop st) now false).2).running = true ∧
    ((Recorder.start (Recorder.stop st) now false).2).startTime = now ∧
    ((Recorder.start (Recorder.stop st) now false).2).stopClosed = true ∧
    Recorder.isRunning ((Recorder.start (Recorder.stop st) now false).2) = true ∧
    runRecorder true results ((Recorder.start (Recorder.stop st) now false).2).lastError =
      ([LoopEvent.terminated],
        ((Recorder.start (Recorder.stop st) now false).2).lastError) ∧
    countAttempts
      (runRecorder true results
        ((Recorder.start (Recorder.stop st) now false).2).lastError).1 = 0 ∧
    (∀ st' : RecorderState, st'.stopClosed = true →
      (Recorder.stop st').stopClosed = true ∧
      ∀ (n : Nat) (mk : Bool), ((Recorder.start st' n mk).2).stopClosed = true) := by
  refine ⟨?_, ?_, ?_, ?_, ?_, ?_, ?_, ?_, ?_, ?_⟩
  · simp [Recorder.stop, h]
  · simp [Recorder.stop, h]
  · simp [Recorder.stop, Recorder.start, h]
  · simp [Recorder.stop, Recorder.start, h]
  · simp [Recorder.stop, Recorder.start, h]
  · simp [Recorder.stop, Recorder.start, h]
  · simp [Recorder.stop, Recorder.start, Recorder.isRunning, h]
  · exact runRecorder_stopped results _
  · rw [runRecorder_stopped]; rfl
  · intro st' h'
    constructor
    · unfold Recorder.stop
      split <;> simp [h']
    · intro n mk
      unfold Recorder.start
      split
      · simpa using h'
      · split <;> simp [h']

def stoppedRecorder : RecorderState :=
  { Recorder.new "rtsp://example/stream" "Front Door" "recordings" with
      running := true, loops := 1 }

theorem stop_then_start_loop_dead_witness :
    stoppedRecorder.running = true ∧
    ((Recorder.stop stoppedRecorder).stopClosed = true ∧
      (Recorder.stop stoppedRecorder).running = false ∧
      (Recorder.start (Recorder.stop stoppedRecorder) 5 false).1 = none ∧
      ((Recorder.start (Recorder.stop stoppedRecorder) 5 false).2).running = true ∧
      ((Recorder.start (Recorder.stop stoppedRecorder) 5 false).2).startTime = 5 ∧
      ((Recorder.start (Recorder.stop stoppedRecorder) 5 false).2).stopClosed = true ∧
      Recorder.isRunning ((Recorder.start (Recorder.stop stoppedRecorder) 5 false).2) = true ∧
      runRecorder true [none, some "ffmpeg error: boom"]
          ((Recorder.start (Recorder.stop stoppedRecorder) 5 false).2).lastError =
        ([LoopEvent.terminated],
          ((Recorder.start (Recorder.stop stoppedRecorder) 5 false).2).lastError) ∧
      countAttempts
        (runRecorder true [none, some "ffmpeg error: boom"]
          ((Recorder.start (Recorder.stop stoppedRecorder) 5 false).2).lastError).1 = 0 ∧
      (∀ st' : RecorderState, st'.stopClosed = true →
        (Recorder.stop st').stopClosed = true ∧
        ∀ (n : Nat) (mk : Bool), ((Recorder.start st' n mk).2).stopClosed = true)) :=
  ⟨rfl, stop_then_start_loop_dead stoppedRecorder 5 [none, some "ffmpeg error: boom"] rfl⟩

/-- C9: `AddCamera` with `enabled = true` whose `Recorder.Start` fails
(output-directory creation failing) returns the start error, yet the
fresh recorder stays registered under its name — no rollback. -/
theorem addCamera_failed_start_keeps_registration (rm : RecorderManager)
    (name url root : String) (now : Nat) (h : rm.recorders.lookup name = none) :
    (rm.addCamera name url true root now true).1 =
      some (startFailedMsg name mkdirFailedMsg) ∧
    (rm.addCamera name url true root now true).2.getRecorder name =
      some (Recorder.new url name root) := by
  have hguard : (rm.recorders.lookup name).isSome = false := by simp [h]
  have hstart : Recorder.start (Recorder.new url name root) now true =
      (some mkdirFailedMsg, Recorder.new url name root) := by
    simp [Recorder.start, Recorder.new]
  constructor
  · unfold RecorderManager.addCamera
    simp only [hguard, Bool.false_eq_true, if_false, if_true, hstart]
  · unfold RecorderManager.addCamera RecorderManager.getRecorder
    simp only [hguard, Bool.false_eq_true, if_false, if_true, hstart]
    exact lookup_setEntry_self rm.recorders name (Recorder.new url name root)

theorem addCamera_failed_start_keeps_registration_witness :
    (⟨[]⟩ : RecorderManager).recorders.lookup "Front Door" = none ∧
    (((⟨[]⟩ : RecorderManager).addCamera "Front Door" "rtsp://cam/door" true
          "recordings" 3 true).1 =
        some (startFailedMsg "Front Door" mkdirFailedMsg) ∧
      ((⟨[]⟩ : RecorderManager).addCamera "Front Door" "rtsp://cam/door" true
          "recordings" 3 true).2.getRecorder "Front Door" =
        some (Recorder.new "rtsp://cam/door" "Front Door" "recordings")) :=
  ⟨rfl, addCamera_failed_start_keeps_registration ⟨[]⟩ "Front Door" "rtsp://cam/door"
    "recordings" 3 rfl⟩

/-- C10: the streaming manager's `Start` on a name that already has a
registered streamer returns `nil` and the manager — streamer map, frame
slots and condition variables alike — is exactly unchanged: a silent
no-op rather than an `AlreadyExists` error. -/
theorem mjpeg_start_existing_silent_noop (m : MJPEGManager) (name url : String)
    (h : (m.streamers.lookup name).isSome = true) :
    MJPEGManager.start m name url = (none, m) := by
  simp [MJPEGManager.start, h]

def sampleMJPEGManager : MJPEGManager :=
  { streamers := [("Garage", MJPEGStreamer.new "rtsp://cam/garage")]
    frames := [("Garage", some [0xFF, 0xD8, 0xFF, 0xD9])]
    conds := ["Garage"] }

theorem mjpeg_start_existing_silent_noop_witness :
    (sampleMJPEGManager.streamers.lookup "Garage").isSome = true ∧
    MJPEGManager.start sampleMJPEGManager "Garage" "rtsp://other" =
      (none, sampleMJPEGManager) :=
  ⟨by decide, mjpeg_start_existing_silent_noop sampleMJPEGManager "Garage"
    "rtsp://other" (by decide)⟩

theorem contains_iff_mem (l : List String) (a : String) :
    l.contains a = true ↔ a ∈ l := by
  simp [List.contains, List.elem_iff]

theorem wf_start (m : MJPEGManager) (name url : String) (h : m.wf) :
    ((m.start name url).2).wf := by
  obtain ⟨hs, hf, hc, hsf, hsc⟩ := h
  unfold MJPEGManager.start
  by_cases hex : (m.streamers.lookup name).isSome
  · simpa [hex] using ⟨hs, hf, hc, hsf, hsc⟩
  · have hmemS : name ∉ keysOf m.streamers := fun hm =>
      hex (lookup_isSome_of_mem_keysOf _ _ hm)
    have hnoneS : m.streamers.lookup name = none :=
      lookup_none_of_not_mem_keysOf _ _ hmemS
    have hmemF : name ∉ keysOf m.frames := by rw [← hsf]; exact hmemS
    have hnoneF : m.frames.lookup name = none :=
      lookup_none_of_not_mem_keysOf _ _ hmemF
    have hmemC : name ∉ m.conds := by rw [← hsc]; exact hmemS
    simp only [hex, Bool.false_eq_true, if_false]
    refine ⟨?_, ?_, ?_, ?_, ?_⟩
    · rw [keysOf_setEntry_of_none _ _ _ hnoneS, List.nodup_append]
      exact ⟨hs, List.nodup_singleton name, List.disjoint_singleton.mpr hmemS⟩
    · rw [keysOf_setEntry_of_none _ _ _ hnoneF, List.nodup_append]
      exact ⟨hf, List.nodup_singleton name, List.disjoint_singleton.mpr hmemF⟩
    · rw [List.nodup_append]
      exact ⟨hc, List.nodup_singleton name, List.disjoint_singleton.mpr hmemC⟩
    · rw [keysOf_setEntry_of_none _ _ _ hnoneS, keysOf_setEntry_of_none _ _ _ hnoneF,
        hsf]
    · rw [keysOf_setEntry_of_none _ _ _ hnoneS, hsc]

theorem wf_deliverFrame (m : MJPEGManager) (name : String) (frame : List UInt8)
    (h : m.wf) : (m.deliverFrame name frame).wf := by
  obtain ⟨hs, hf, hc, hsf, hsc⟩ := h
  unfold MJPEGManager.deliverFrame
  by_cases hin : m.conds.contains name
  · have hmemF : name ∈ keysOf m.frames := by
      rw [← hsf, hsc]
      exact (contains_iff_mem _ _).mp hin
    have hsome : (m.frames.lookup name).isSome :=
      lookup_isSome_of_mem_keysOf _ _ hmemF
    simp only [hin, if_true]
    exact ⟨hs, by rw [keysOf_setEntry_of_isSome _ _ _ hsome]; exact hf, hc,
      by rw [keysOf_setEntry_of_isSome _ _ _ hsome]; exact hsf, hsc⟩
  · have hmem : name ∉ m.conds := fun hm => hin ((contains_iff_mem _ _).mpr hm)
    simpa [hin, hmem] using ⟨hs, hf, hc, hsf, hsc⟩

theorem wf_stop (m : MJPEGManager) (name : String) (h : m.wf) :
    (m.stop name).wf := by
  obtain ⟨hs, hf, hc, hsf, hsc⟩ := h
  unfold MJPEGManager.stop
  by_cases hex : (m.streamers.lookup name).isSome
  · simp only [hex, if_true]
    refine ⟨?_, ?_, ?_, ?_, ?_⟩
    · rw [keysOf_removeEntry]; exact hs.filter _
    · rw [keysOf_removeEntry]; exact hf.filter _
    · exact hc.filter _
    · rw [keysOf_removeEntry, keysOf_removeEntry, hsf]
    · rw [keysOf_removeEntry, hsc]
  · simpa [hex] using ⟨hs, hf, hc, hsf, hsc⟩

/-- C7: the frame broadcaster keeps at most one stored frame per camera:
well-formedness (unique keys, aligned key sets) is preserved by `Start`,
frame delivery, `Stop` and `StopAll`; after a delivery the per-name entry
count in the frame map is still at most one; delivering to a registered
camera overwrites its single slot with the new frame without growing the
map; and after `Stop` the camera's frame slot and condition variable are
gone, so `GetFrame` reports not-found. -/
theorem broadcaster_single_slot (m : MJPEGManager) (name url : String)
    (frame : List UInt8) (h : m.wf) :
    ((m.start name url).2).wf ∧
    (m.deliverFrame name frame).wf ∧
    (m.stop name).wf ∧
    (m.stopAll).wf ∧
    (∀ n : String, (keysOf (m.deliverFrame name frame).frames).count n ≤ 1) ∧
    (m.conds.contains name = true →
      (m.deliverFrame name frame).getFrame name = some (some frame) ∧
      (m.deliverFrame name frame).frames.length = m.frames.length) ∧
    (m.stop name).getFrame name = none ∧
    (m.stop name).conds.contains name = false := by
  refine ⟨wf_start m name url h, wf_deliverFrame m name frame h, wf_stop m name h,
    ?_, ?_, ?_, ?_, ?_⟩
  · exact ⟨List.nodup_nil, List.nodup_nil, List.nodup_nil, rfl, rfl⟩
  · intro n
    exact List.nodup_iff_count_le_one.mp (wf_deliverFrame m name frame h).2.1 n
  · intro hin
    have hmemF : name ∈ keysOf m.frames := by
      rw [← h.2.2.2.1, h.2.2.2.2]
      exact (contains_iff_mem _ _).mp hin
    have hsome : (m.frames.lookup name).isSome :=
      lookup_isSome_of_mem_keysOf _ _ hmemF
    constructor
    · unfold MJPEGManager.deliverFrame MJPEGManager.getFrame
      simp only [hin, if_true]
      exact lookup_setEntry_self _ _ _
    · unfold MJPEGManager.deliverFrame
      simp only [hin, if_true]
      exact length_setEntry_of_isSome _ _ _ hsome
  · unfold MJPEGManager.stop MJPEGManager.getFrame
    by_cases hex : (m.streamers.lookup name).isSome
    · simp only [hex, if_true]
      exact lookup_removeEntry_self _ _
    · simp only [hex, Bool.false_eq_true, if_false]
      refine lookup_none_of_not_mem_keysOf _ _ (fun hm => hex ?_)
      refine lookup_isSome_of_mem_keysOf _ _ ?_
      rw [h.2.2.2.1]
      exact hm
  · unfold MJPEGManager.stop
    by_cases hex : (m.streamers.lookup name).isSome
    · simp only [hex, if_true]
      rw [Bool.eq_false_iff]
      intro hcontra
      have := (contains_iff_mem _ _).mp hcontra
      rw [List.mem_filter] at this
      simpa using this.2
    · simp only [hex, Bool.false_eq_true, if_false]
      rw [Bool.eq_false_iff]
      intro hcontra
      have hm := (contains_iff_mem _ _).mp hcontra
      rw [← h.2.2.2.2] at hm
      exact hex (lookup_isSome_of_mem_keysOf _ _ hm)

theorem broadcaster_single_slot_witness :
    sampleMJPEGManager.wf ∧
    ((sampleMJPEGManager.start "Garage" "rtsp://cam/porch").2.wf ∧
      (sampleMJPEGManager.deliverFrame "Garage" [0xFF, 0xD8, 0x00, 0xFF, 0xD9]).wf ∧
      (sampleMJPEGManager.stop "Garage").wf ∧
      (sampleMJPEGManager.stopAll).wf ∧
      (∀ n : String,
        (keysOf (sampleMJPEGManager.deliverFrame "Garage"
          [0xFF, 0xD8, 0x00, 0xFF, 0xD9]).frames).count n ≤ 1) ∧
      (sampleMJPEGManager.conds.contains "Garage" = true →
        (sampleMJPEGManager.deliverFrame "Garage"
            [0xFF, 0xD8, 0x00, 0xFF, 0xD9]).getFrame "Garage" =
          some (some [0xFF, 0xD8, 0x00, 0xFF, 0xD9]) ∧
        (sampleMJPEGManager.deliverFrame "Garage"
            [0xFF, 0xD8, 0x00, 0xFF, 0xD9]).frames.length =
          sampleMJPEGManager.frames.length) ∧
      (sampleMJPEGManager.stop "Garage").getFrame "Garage" = none ∧
      (sampleMJPEGManager.stop "Garage").conds.contains "Garage" = false) :=
  ⟨by decide, broadcaster_single_slot sampleMJPEGManager "Garage" "rtsp://cam/porch"
    [0xFF, 0xD8, 0x00, 0xFF, 0xD9] (by decide)⟩

/-- Whether the sweep actually removes `f`: a regular file whose
metadata is readable, whose modification time strictly precedes the
cutoff, and whose deletion succeeds. -/
def sweepRemoves (cutoff : Int) (f : FsFile) : Bool :=
  !f.isDir && !f.infoFails && decide (f.modTime < cutoff) && !f.removeFails

theorem cleanupEntries_characterized (cutoff : Int) (l : List FsFile) :
    (cleanupEntries cutoff l).1 = l.filter (fun f => !sweepRemoves cutoff f) ∧
    (cleanupEntries cutoff l).2.1 = (l.filter (fun f => sweepRemoves cutoff f)).length := by
  induction l with
  | nil => exact ⟨rfl, rfl⟩
  | cons f rest ih =>
      by_cases h1 : f.isDir = true <;> by_cases h2 : f.infoFails = true <;>
        by_cases h3 : f.modTime < cutoff <;> by_cases h4 : f.removeFails = true <;>
          simp [cleanupEntries, sweepRemoves, List.filter_cons, h1, h2, h3, h4,
            ih.1, ih.2]

/-- C3: one retention sweep of a readable camera directory keeps exactly
the entries it does not remove (subdirectories, unreadable metadata,
files at or after the cutoff, and files whose deletion fails — the last
skipped without aborting the rest); when no per-file failure occurs it
deletes exactly the files strictly older than the cutoff and leaves every
other file untouched, the deleted count matching; an empty camera
directory is a no-op, a missing output root is a no-op with no error, and
an unreadable (or vanished, or non-directory) camera directory is
skipped as zero work. -/
theorem retention_sweep_exact (cutoff : Int) (root : OutputRoot) (d : CameraDir)
    (hd : d.isDir = true) (hr : d.readFails = false) :
    (cleanupDir cutoff d).1.entries =
      d.entries.filter (fun f => !sweepRemoves cutoff f) ∧
    ((∀ f ∈ d.entries, f.isDir = false ∧ f.infoFails = false ∧ f.removeFails = false) →
      (cleanupDir cutoff d).1.entries =
        d.entries.filter (fun f => decide (cutoff ≤ f.modTime)) ∧
      (cleanupDir cutoff d).2.1 =
        (d.entries.filter (fun f => decide (f.modTime < cutoff))).length) ∧
    (d.entries = [] → cleanupDir cutoff d = (d, 0, 0)) ∧
    (root.rootMissing = true → cleanup cutoff root = (root, 0, 0)) ∧
    (∀ d' : CameraDir, d'.readFails = true → cleanupDir cutoff d' = (d', 0, 0)) := by
  have hdir : cleanupDir cutoff d =
      ({ d with entries := (cleanupEntries cutoff d.entries).1 },
        (cleanupEntries cutoff d.entries).2.1, (cleanupEntries cutoff d.entries).2.2) := by
    simp [cleanupDir, hd, hr]
  refine ⟨?_, ?_, ?_, ?_, ?_⟩
  · rw [hdir]
    exact (cleanupEntries_characterized cutoff d.entries).1
  · intro hall
    constructor
    · rw [hdir]
      rw [(cleanupEntries_characterized cutoff d.entries).1]
      refine List.filter_congr ?_
      intro f hf
      obtain ⟨h1, h2, h3⟩ := hall f hf
      by_cases hm : f.modTime < cutoff
      · simp [sweepRemoves, h1, h2, h3, hm, not_le.mpr hm]
      · simp [sweepRemoves, h1, h2, h3, hm, not_lt.mp hm]
    · rw [hdir]
      simp only
      rw [(cleanupEntries_characterized cutoff d.entries).2]
      congr 1
      refine List.filter_congr ?_
      intro f hf
      obtain ⟨h1, h2, h3⟩ := hall f hf
      simp [sweepRemoves, h1, h2, h3]
  · intro hempty
    rw [hdir, hempty]
    have hnil : cleanupEntries cutoff ([] : List FsFile) = ([], 0, 0) := rfl
    rw [hnil, ← hempty]
  · intro hmiss
    simp [cleanup, hmiss]
  · intro d' hr'
    unfold cleanupDir
    by_cases hd' : d'.isDir = true <;> simp [hd', hr']

def oldFile : FsFile :=
  { name := "Front_Door_20250101_120000.mp4", isDir := false, modTime := -604800,
    size := 100, infoFails := false, removeFails := false }

def newFile : FsFile :=
  { name := "Front_Door_20260101_120000.mp4", isDir := false, modTime := 604800,
    size := 200, infoFails := false, removeFails := false }

def stuckFile : FsFile :=
  { name := "Front_Door_20240101_120000.mp4", isDir := false, modTime := -999999,
    size := 50, infoFails := false, removeFails := true }

def sampleDir : CameraDir :=
  { name := "Front_Door", isDir := true, readFails := false,
    entries := [oldFile, stuckFile, newFile] }

def missingRoot : OutputRoot := { rootMissing := true, dirs := [] }

theorem retention_sweep_exact_witness :
    (sampleDir.isDir = true ∧ sampleDir.readFails = false) ∧
    ((cleanupDir 0 sampleDir).1.entries =
        sampleDir.entries.filter (fun f => !sweepRemoves 0 f) ∧
      ((∀ f ∈ sampleDir.entries,
          f.isDir = false ∧ f.infoFails = false ∧ f.removeFails = false) →
        (cleanupDir 0 sampleDir).1.entries =
          sampleDir.entries.filter (fun f => decide ((0 : Int) ≤ f.modTime)) ∧
        (cleanupDir 0 sampleDir).2.1 =
          (sampleDir.entries.filter (fun f => decide (f.modTime < (0 : Int)))).length) ∧
      (sampleDir.entries = [] → cleanupDir 0 sampleDir = (sampleDir, 0, 0)) ∧
      (missingRoot.rootMissing = true → cleanup 0 missingRoot = (missingRoot, 0, 0)) ∧
      (∀ d' : CameraDir, d'.readFails = true → cleanupDir 0 d' = (d', 0, 0))) :=
  ⟨⟨rfl, rfl⟩, retention_sweep_exact 0 missingRoot sampleDir rfl rfl⟩

/-! ## Demuxer lemmas -/

theorem bytesIndex_of_isPrefixOf {data pattern : List UInt8}
    (h : pattern.isPrefixOf data = true) : bytesIndex data pattern = some 0 := by
  cases data <;> rw [bytesIndex] <;> rw [if_pos h]

theorem bytesIndex_cons_unmatched {x : UInt8} {rest pattern : List UInt8}
    (h : pattern.isPrefixOf (x :: rest) = false) :
    bytesIndex (x :: rest) pattern = (bytesIndex rest pattern).map (· + 1) := by
  rw [bytesIndex]
  rw [if_neg (by simp [h])]

theorem bytesIndex_none_parts {x : UInt8} {rest pattern : List UInt8}
    (h : bytesIndex (x :: rest) pattern = none) :
    pattern.isPrefixOf (x :: rest) = false ∧ bytesIndex rest pattern = none := by
  by_cases hp : pattern.isPrefixOf (x :: rest) = true
  · rw [bytesIndex_of_isPrefixOf hp] at h
    cases h
  · have hp' : pattern.isPrefixOf (x :: rest) = false := Bool.eq_false_iff.mpr hp
    rw [bytesIndex_cons_unmatched hp'] at h
    exact ⟨hp', Option.map_eq_none'.mp h⟩

/-- First-occurrence search distributes over an append when the left part
contains no occurrence of the two-byte pattern and no occurrence spans
the boundary. -/
theorem bytesIndex_append_pair (xs ys : List UInt8) (a b : UInt8)
    (hnone : bytesIndex xs [a, b] = none)
    (hspan : xs.getLast? = some a → ys.head? ≠ some b) :
    bytesIndex (xs ++ ys) [a, b] = (bytesIndex ys [a, b]).map (· + xs.length) := by
  induction xs with
  | nil =>
      simp only [List.nil_append, List.length_nil]
      cases bytesIndex ys [a, b] <;> simp
  | cons x rest ih =>
      obtain ⟨hnp, hrest⟩ := bytesIndex_none_parts hnone
      have hgoalnp : ([a, b].isPrefixOf (x :: (rest ++ ys))) = false := by
        cases rest with
        | nil =>
            by_cases hax : (a == x) = true
            · have hlast : (x :: ([] : List UInt8)).getLast? = some a := by
                rw [eq_of_beq hax]
                rfl
              have hhead := hspan hlast
              cases ys with
              | nil => simp [List.isPrefixOf]
              | cons y ys' =>
                  have hyb : (b == y) = false := by
                    by_cases hby : (b == y) = true
                    · exfalso
                      apply hhead
                      rw [List.head?_cons, eq_of_beq hby]
                    · exact Bool.eq_false_iff.mpr hby
                  simp [List.isPrefixOf, hyb]
            · have hax' : (a == x) = false := Bool.eq_false_iff.mpr hax
              simp [List.isPrefixOf, hax']
        | cons r rest' =>
            simp only [List.cons_append]
            simp only [List.isPrefixOf, Bool.and_true, Bool.and_eq_false_iff]
              at hnp ⊢
            rcases hnp with h | h
            · exact Or.inl h
            · exact Or.inr h
      rw [List.cons_append, bytesIndex_cons_unmatched hgoalnp]
      have hspan' : rest.getLast? = some a → ys.head? ≠ some b := by
        intro hl
        cases rest with
        | nil => simp [List.getLast?] at hl
        | cons r rest' =>
            refine hspan ?_
            rw [List.getLast?_cons_cons]
            exact hl
      rw [ih hrest hspan']
      cases bytesIndex ys [a, b] with
      | none => rfl
      | some v => simp [Nat.add_assoc]

theorem scanFrames_eq_no_start (acc : List UInt8)
    (h : bytesIndex acc jpegStart = none) :
    scanFrames acc =
      if acc.length > 512 * 1024 then ([], acc.drop (acc.length / 2))
      else ([], acc) := by
  rw [scanFrames.eq_def]
  split
  · rfl
  · next s heq =>
      rw [h] at heq
      cases heq

theorem scanFrames_eq_no_end (acc : List UInt8) (s : Nat)
    (h1 : bytesIndex acc jpegStart = some s)
    (h2 : bytesIndex (acc.drop s) jpegEnd = none) :
    scanFrames acc = ([], acc) := by
  rw [scanFrames.eq_def]
  split
  · next heq => rw [h1] at heq; cases heq
  · next s' heq =>
      rw [h1] at heq
      injection heq with hs
      subst hs
      split
      · rfl
      · next e0' heq2 =>
          rw [h2] at heq2
          cases heq2

theorem scanFrames_eq_found (acc : List UInt8) (s e0 : Nat)
    (h1 : bytesIndex acc jpegStart = some s)
    (h2 : bytesIndex (acc.drop s) jpegEnd = some e0) :
    scanFrames acc =
      (((acc.drop s).take (e0 + 2)) :: (scanFrames (acc.drop (s + (e0 + 2)))).1,
        (scanFrames (acc.drop (s + (e0 + 2)))).2) := by
  rw [scanFrames.eq_def]
  split
  · next heq => rw [h1] at heq; cases heq
  · next s' heq =>
      rw [h1] at heq
      injection heq with hs
      subst hs
      split
      · next heq2 => rw [h2] at heq2; cases heq2
      · next e0' heq2 =>
          rw [h2] at heq2
          injection heq2 with he
          subst he
          rfl

theorem scanFrames_nil : scanFrames [] = ([], []) := by
  rw [scanFrames_eq_no_start [] rfl]
  rfl

/-- Extract one complete leading frame; the scan continues on whatever
follows it. -/
theorem scanFrames_frame_cons (b rest : List UInt8)
    (hb : bytesIndex (jpegStart ++ b) jpegEnd = none)
    (hrest : rest.head? ≠ some (0xD9 : UInt8)) :
    scanFrames (frameBytes b ++ rest) =
      (frameBytes b :: (scanFrames rest).1, (scanFrames rest).2) := by
  have hacc1 : frameBytes b ++ rest = (jpegStart ++ b) ++ (jpegEnd ++ rest) := by
    simp [frameBytes, List.append_assoc]
  have h1 : bytesIndex (frameBytes b ++ rest) jpegStart = some 0 := by
    refine bytesIndex_of_isPrefixOf ?_
    simp [frameBytes, jpegStart, jpegEnd, List.isPrefixOf]
  have hys : bytesIndex (jpegEnd ++ rest) jpegEnd = some 0 := by
    refine bytesIndex_of_isPrefixOf ?_
    cases rest <;> simp [jpegEnd, List.isPrefixOf]
  have hspanr : (jpegStart ++ b).getLast? = some 0xFF →
      (jpegEnd ++ rest).head? ≠ some 0xD9 := by
    intro _
    have hh : (jpegEnd ++ rest).head? = some 0xFF := rfl
    rw [hh]
    decide
  have happ : bytesIndex ((jpegStart ++ b) ++ (jpegEnd ++ rest)) jpegEnd =
      (bytesIndex (jpegEnd ++ rest) jpegEnd).map (· + (jpegStart ++ b).length) :=
    bytesIndex_append_pair (jpegStart ++ b) (jpegEnd ++ rest) 0xFF 0xD9 hb hspanr
  have h2 : bytesIndex (frameBytes b ++ rest) jpegEnd =
      some ((jpegStart ++ b).length) := by
    rw [hacc1, happ, hys]
    simp
  have h2' : bytesIndex ((frameBytes b ++ rest).drop 0) jpegEnd =
      some ((jpegStart ++ b).length) := by
    rw [List.drop_zero]
    exact h2
  rw [scanFrames_eq_found (frameBytes b ++ rest) 0 ((jpegStart ++ b).length) h1 h2']
  have hlen : (frameBytes b).length = (jpegStart ++ b).length + 2 := by
    simp [frameBytes, jpegStart, jpegEnd, List.length_append]
  have htake : ((frameBytes b ++ rest).drop 0).take ((jpegStart ++ b).length + 2) =
      frameBytes b := by
    rw [List.drop_zero]
    exact List.take_left' hlen
  have hdrop : (frameBytes b ++ rest).drop (0 + ((jpegStart ++ b).length + 2)) =
      rest := by
    rw [Nat.zero_add]
    exact List.drop_left' hlen
  rw [htake, hdrop]

/-- C4: a chunk that completes the accumulator to exactly two
back-to-back frames makes the demuxer emit exactly those two frames, in
arrival order, each the inclusive byte range from its start marker
through its end marker, with an empty accumulator left; and a buffer
holding a start marker with no end marker yet emits zero frames and
keeps its bytes until a later chunk supplies the end marker, at which
point exactly that frame is emitted. -/
theorem demux_two_frames (acc chunk b1 b2 : List UInt8)
    (hsplit : acc ++ chunk = frameBytes b1 ++ frameBytes b2)
    (h1 : bytesIndex (jpegStart ++ b1) jpegEnd = none)
    (h2 : bytesIndex (jpegStart ++ b2) jpegEnd = none) :
    processChunk acc chunk = ([frameBytes b1, frameBytes b2], []) ∧
    (∀ b : List UInt8, bytesIndex (jpegStart ++ b) jpegEnd = none →
      scanFrames (jpegStart ++ b) = ([], jpegStart ++ b) ∧
      processChunk (jpegStart ++ b) jpegEnd = ([frameBytes b], [])) := by
  have hone : ∀ b : List UInt8, bytesIndex (jpegStart ++ b) jpegEnd = none →
      scanFrames (frameBytes b) = ([frameBytes b], []) := by
    intro b hbnone
    have := scanFrames_frame_cons b [] hbnone (by simp)
    rw [List.append_nil] at this
    rw [this, scanFrames_nil]
  constructor
  · unfold processChunk
    rw [hsplit]
    rw [scanFrames_frame_cons b1 (frameBytes b2) h1
      (by simp [frameBytes, jpegStart, List.head?])]
    rw [hone b2 h2]
  · intro b hbnone
    constructor
    · have hpre : bytesIndex (jpegStart ++ b) jpegStart = some 0 := by
        refine bytesIndex_of_isPrefixOf ?_
        simp [jpegStart, List.isPrefixOf]
      have hnoend : bytesIndex ((jpegStart ++ b).drop 0) jpegEnd = none := by
        rw [List.drop_zero]; exact hbnone
      exact scanFrames_eq_no_end (jpegStart ++ b) 0 hpre hnoend
    · unfold processChunk
      have hassoc : (jpegStart ++ b) ++ jpegEnd = frameBytes b ++ [] := by
        simp [frameBytes, List.append_assoc]
      rw [hassoc]
      rw [scanFrames_frame_cons b [] hbnone (by simp), scanFrames_nil]

theorem demux_two_frames_witness :
    (frameBytes [0x01] ++ frameBytes [0x02] = frameBytes [0x01] ++ frameBytes [0x02] ∧
      bytesIndex (jpegStart ++ [0x01]) jpegEnd = none ∧
      bytesIndex (jpegStart ++ [0x02]) jpegEnd = none) ∧
    (processChunk (frameBytes [0x01]) (frameBytes [0x02]) =
        ([frameBytes [0x01], frameBytes [0x02]], []) ∧
      (∀ b : List UInt8, bytesIndex (jpegStart ++ b) jpegEnd = none →
        scanFrames (jpegStart ++ b) = ([], jpegStart ++ b) ∧
        processChunk (jpegStart ++ b) jpegEnd = ([frameBytes b], []))) :=
  ⟨⟨rfl, by decide, by decide⟩,
    demux_two_frames (frameBytes [0x01]) (frameBytes [0x02]) [0x01] [0x02] rfl
      (by decide) (by decide)⟩

/-! ## Lexicographic order of segment filenames -/

theorem digitChar_lt_iff :
    ∀ d1 < 10, ∀ d2 < 10, (digitChar d1 < digitChar d2 ↔ d1 < d2) := by decide

theorem list_lt_append_left {xs ys zs : List Char} (h : List.lt ys zs) :
    List.lt (xs ++ ys) (xs ++ zs) := by
  induction xs with
  | nil => exact h
  | cons c cs ih => exact List.lt.tail (lt_irrefl c) (lt_irrefl c) ih

theorem list_lt_append_of_eqlen {xs ys : List Char} (h : List.lt xs ys)
    (hlen : xs.length = ys.length) (as bs : List Char) :
    List.lt (xs ++ as) (ys ++ bs) := by
  induction h with
  | nil b bs' => simp at hlen
  | head as' bs' hab => exact List.lt.head _ _ hab
  | tail hab hba hlt ih =>
      exact List.lt.tail hab hba (ih (by simpa using hlen))

theorem pad2_lt {m n : Nat} (h : m < n) (hn : n < 100) :
    List.lt (pad2 m) (pad2 n) := by
  by_cases hd : m / 10 < n / 10
  · exact List.lt.head _ _ ((digitChar_lt_iff _ (by omega) _ (by omega)).mpr hd)
  · have hde : m / 10 = n / 10 := by omega
    have hmod : m % 10 < n % 10 := by omega
    refine List.lt.tail ?_ ?_
      (List.lt.head _ _ ((digitChar_lt_iff _ (by omega) _ (by omega)).mpr hmod))
    · rw [hde]; exact lt_irrefl _
    · rw [hde]; exact lt_irrefl _

theorem pad4_lt {m n : Nat} (h : m < n) (hn : n < 10000) :
    List.lt (pad4 m) (pad4 n) := by
  by_cases hd : m / 100 < n / 100
  · exact list_lt_append_of_eqlen (pad2_lt hd (by omega)) rfl _ _
  · have hde : m / 100 = n / 100 := by omega
    have hmod : m % 100 < n % 100 := by omega
    unfold pad4
    rw [hde]
    exact list_lt_append_left (pad2_lt hmod (by omega))

theorem formatTimestamp_length (t : DateTime) : (formatTimestamp t).length = 15 :=
  rfl

theorem formatTimestamp_lt {t1 t2 : DateTime} (h2 : t2.valid)
    (h : DateTime.before t1 t2) :
    List.lt (formatTimestamp t1) (formatTimestamp t2) := by
  obtain ⟨hy2, hmo2a, hmo2b, hd2a, hd2b, hh2, hmi2, hs2⟩ := h2
  unfold formatTimestamp
  simp only [List.append_assoc, List.cons_append, List.nil_append]
  rcases h with hy | ⟨hy, h⟩
  · exact list_lt_append_of_eqlen (pad4_lt hy hy2) rfl _ _
  rw [hy]
  refine list_lt_append_left ?_
  rcases h with hmo | ⟨hmo, h⟩
  · exact list_lt_append_of_eqlen (pad2_lt hmo (by omega)) rfl _ _
  rw [hmo]
  refine list_lt_append_left ?_
  rcases h with hd | ⟨hd, h⟩
  · exact list_lt_append_of_eqlen (pad2_lt hd (by omega)) rfl _ _
  rw [hd]
  refine list_lt_append_left ?_
  refine List.lt.tail (lt_irrefl '_') (lt_irrefl '_') ?_
  rcases h with hh | ⟨hh, h⟩
  · exact list_lt_append_of_eqlen (pad2_lt hh (by omega)) rfl _ _
  rw [hh]
  refine list_lt_append_left ?_
  rcases h with hmi | ⟨hmi, hs⟩
  · exact list_lt_append_of_eqlen (pad2_lt hmi (by omega)) rfl _ _
  rw [hmi]
  refine list_lt_append_left ?_
  exact pad2_lt hs (by omega)

theorem segment_filename_mono (cam fmt : String) {t1 t2 : DateTime}
    (h2 : t2.valid) (h : DateTime.before t1 t2) :
    segmentFilename cam fmt t1 < segmentFilename cam fmt t2 := by
  rw [String.lt_iff_toList_lt]
  show List.Lex (· < ·) (segmentFilenameChars cam fmt t1)
    (segmentFilenameChars cam fmt t2)
  rw [← List.lt_iff_lex_lt]
  show List.lt (segmentFilenameChars cam fmt t1) (segmentFilenameChars cam fmt t2)
  unfold segmentFilenameChars
  simp only [List.append_assoc, List.cons_append, List.nil_append]
  refine list_lt_append_left ?_
  refine List.lt.tail (lt_irrefl '_') (lt_irrefl '_') ?_
  refine list_lt_append_of_eqlen (formatTimestamp_lt h2 h) ?_ _ _
  rw [formatTimestamp_length, formatTimestamp_length]

theorem before_trichotomy (a b : DateTime) :
    DateTime.before a b ∨ a = b ∨ DateTime.before b a := by
  obtain ⟨y1, mo1, d1, h1, mi1, s1⟩ := a
  obtain ⟨y2, mo2, d2, h2, mi2, s2⟩ := b
  simp only [DateTime.before, DateTime.mk.injEq]
  omega

/-- C5: for one camera (and output format), two segments recorded at
distinct wall-clock instants have filenames whose lexical (string) order
is exactly the chronological order of their creation instants. -/
theorem segment_filename_order_matches_time (cam fmt : String) (t1 t2 : DateTime)
    (h1 : t1.valid) (h2 : t2.valid) :
    (DateTime.before t1 t2 ↔
      segmentFilename cam fmt t1 < segmentFilename cam fmt t2) := by
  constructor
  · exact segment_filename_mono cam fmt h2
  · intro hlt
    rcases before_trichotomy t1 t2 with h | h | h
    · exact h
    · exfalso
      rw [h] at hlt
      exact lt_irrefl _ hlt
    · exfalso
      exact lt_asymm hlt (segment_filename_mono cam fmt h1 h)

def earlierInstant : DateTime :=
  { year := 2025, month := 12, day := 31, hour := 23, minute := 59, second := 59 }

def laterInstant : DateTime :=
  { year := 2026, month := 1, day := 1, hour := 0, minute := 0, second := 0 }

theorem segment_filename_order_matches_time_witness :
    (earlierInstant.valid ∧ laterInstant.valid) ∧
    (DateTime.before earlierInstant laterInstant ↔
      segmentFilename "Front Door" "mp4" earlierInstant <
        segmentFilename "Front Door" "mp4" laterInstant) :=
  ⟨⟨by decide, by decide⟩,
    segment_filename_order_matches_time "Front Door" "mp4" earlierInstant
      laterInstant (by decide) (by decide)⟩

end CamRecorder
